import Mathlib

/-!
# moire: sampler primitives and genotyping data

A shallow embedding of `src/sampler.cpp` and `src/genotyping_data.cpp`.

Conventions of the embedding.

* `double` arithmetic is read in exact arithmetic: the numeric functions are
  written over an arbitrary linearly ordered field `K`, so they evaluate over
  `ℚ` and the theorems hold over `ℝ`.
* `std::log` and `std::exp` are arguments `log exp : K → K`; the theorems
  instantiate them with `Real.log` and `Real.exp`.
* The random engine `eng` is a counter of the variates drawn so far. A
  distribution object is a function of its parameters and of the engine
  position, so the theorems, which quantify over that function, cover every
  sequence of draws.
* A `std::vector` is a `List`; `for (i = 0; i < n; i++)` is `forLoop n`.
  An access the C++ code performs out of bounds makes the embedded function
  return `none`.
* `int` arithmetic is read in `ℤ` (signed overflow is undefined in C++); on
  the 0/1 tensors of the data model the sums the constructor forms are bounded
  by the vector lengths. The one reinterpretation the code makes explicit, the
  `unsigned int` counts read back as `int`, is modelled by `toInt32`.
-/

namespace Moire

/-! ## Counted loops -/

/-- The loop `for (i = 0; i < n; i++) s = body(i, s)`. -/
def forLoop {σ : Type} (n : Nat) (body : Nat → σ → σ) (init : σ) : σ :=
  (List.range n).foldl (fun s i => body i s) init

/-- The loop `for (i = 0; i < n; i++)` whose body may fail. -/
def forLoopM {σ : Type} (n : Nat) (body : Nat → σ → Option σ) (init : σ) : Option σ :=
  (List.range n).foldlM (fun s i => body i s) init

/-! ## Sampler -/

section Sampler

variable {K : Type} [LinearOrderedField K]

/-- Method `Sampler::rgamma`: one draw `x` of the gamma distribution object at the
current engine position, clamped by the constants `UNDERFLO` and `OVERFLO` of
`mcmc_utils.h`. Returns the value and the advanced engine. -/
def rgamma (UNDERFLO OVERFLO : K) (gamma_distr : K → K → Nat → K)
    (alpha beta : K) (eng : Nat) : K × Nat :=
  let x := gamma_distr alpha beta eng
  let x := if x < UNDERFLO then UNDERFLO else if x > OVERFLO then OVERFLO else x
  (x, eng + 1)

/-- Method `Sampler::rdirichlet`: one clamped gamma draw per component, accumulated
in `res_sum`, then every component multiplied by `1.0 / res_sum`. The loop
state of the first loop is `(res, res_sum, eng)`. -/
def rdirichlet (UNDERFLO OVERFLO : K) (gamma_distr : K → K → Nat → K)
    (shape_vec : List K) (eng : Nat) : List K × Nat :=
  let n := shape_vec.length
  let res : List K := List.replicate n 0
  let st := forLoop n (fun i (st : List K × K × Nat) =>
    let g := rgamma UNDERFLO OVERFLO gamma_distr (shape_vec.getD i 0) 1 st.2.2
    let res := st.1.set i g.1
    (res, st.2.1 + res.getD i 0, g.2)) (res, 0, eng)
  let res_sum_inv := 1 / st.2.1
  let res := forLoop st.1.length
    (fun i (res : List K) => res.set i (res.getD i 0 * res_sum_inv)) st.1
  (res, st.2.2)

/-- Method `Sampler::rlogit_norm`. `n = p.size() - 1` is an `int`; for an empty `p`
it is `-1`, `ret` is empty and the final `ret[n] = tmp2` writes outside `ret`:
the embedding returns `none` there. The loop state of the first loop is
`(ret, tmp1, eng)`. -/
def rlogit_norm (log exp : K → K) (norm_distr : K → K → Nat → K)
    (p : List K) (variance : K) (eng : Nat) : Option (List K × Nat) :=
  let n : Int := (p.length : Int) - 1
  if n < 0 then none
  else
    let n := n.toNat
    let ret : List K := List.replicate (n + 1) 0
    let st := forLoop n (fun i (st : List K × K × Nat) =>
      let z := norm_distr (log (p.getD i 0 / p.getD n 0)) variance st.2.2
      let ret := st.1.set i (exp z)
      (ret, st.2.1 + ret.getD i 0, st.2.2 + 1)) (ret, 0, eng)
    let tmp2 := 1 / (1 + st.2.1)
    let ret := forLoop n (fun i (ret : List K) => ret.set i (ret.getD i 0 * tmp2)) st.1
    let ret := ret.set n tmp2
    some (ret, st.2.2)

/-- The value the first loop of `rlogit_norm` stores in `ret[i]`:
`exp(norm_distr(eng))` with the distribution set to mean `log(p[i] / p[n])`,
`n = p.size() - 1`, the engine having advanced `i` times. -/
def rlogit_norm_draw (log exp : K → K) (norm_distr : K → K → Nat → K)
    (p : List K) (variance : K) (eng : Nat) (i : Nat) : K :=
  exp (norm_distr (log (p.getD i 0 / p.getD (p.length - 1) 0)) variance (eng + i))

/-- Method `Sampler::dztpois`. `lookup_lgamma` is the table of the `Lookup` object;
an index `x + 1` outside the table gives `none`. -/
def dztpois (log exp : K → K) (lookup_lgamma : List K) (x : Int) (lambda : K) : Option K :=
  if 0 ≤ x + 1 then
    (lookup_lgamma[(x + 1).toNat]?).map
      (fun t => (x : K) * log lambda - log (exp lambda - 1) - t)
  else none

/-- Method `Sampler::get_coi_log_prob`. -/
def get_coi_log_prob (log exp : K → K) (lookup_lgamma : List K) (coi : Int) (mean : K) :
    Option K :=
  dztpois log exp lookup_lgamma coi mean

/-- Method `Sampler::sample_coi_delta(double)`: the sign from the Bernoulli object,
the size from the geometric object with success probability
`1 / (1 + coi_prop_mean)`. The geometric object yields a non-negative `int`.
Both draws are functions of the engine position; the two operands of the
product are drawn in either order. -/
def sample_coi_delta (ber_distr : Nat → Bool) (geom_distr : K → Nat → Nat)
    (coi_prop_mean : K) (eng : Nat) : Int × Nat :=
  let b : Int := if ber_distr eng then 1 else 0
  let g : Int := (geom_distr (1 / (1 + coi_prop_mean)) eng : Nat)
  ((2 * b - 1) * g, eng + 2)

/-- Method `Sampler::sample_allele_frequencies`. -/
def sample_allele_frequencies (UNDERFLO OVERFLO : K) (gamma_distr : K → K → Nat → K)
    (curr_allele_frequencies : List K) (alpha : K) (eng : Nat) : List K × Nat :=
  let shape_vec : List K := List.replicate curr_allele_frequencies.length 0
  let shape_vec := forLoop shape_vec.length
    (fun i (sv : List K) => sv.set i (curr_allele_frequencies.getD i 0 * alpha)) shape_vec
  rdirichlet UNDERFLO OVERFLO gamma_distr shape_vec eng

/-- Method `Sampler::sample_allele_frequencies2`. -/
def sample_allele_frequencies2 (log exp : K → K) (norm_distr : K → K → Nat → K)
    (curr_allele_frequencies : List K) (variance : K) (eng : Nat) : Option (List K × Nat) :=
  rlogit_norm log exp norm_distr curr_allele_frequencies variance eng

/-- Reading as `int` a 32-bit word that was written as `unsigned int`. -/
def toInt32 (u : Nat) : Int :=
  if u % 2 ^ 32 < 2 ^ 31 then ((u % 2 ^ 32 : Nat) : Int) else ((u % 2 ^ 32 : Nat) : Int) - 2 ^ 32

/-- Method `Sampler::sample_latent_genotype`. `gsl_ran_multinomial K N p` is the count
vector the GSL routine writes, as `unsigned int`, over the `int` buffer
`tmp_alleles`; `coi` is passed to it as `unsigned int`. -/
def sample_latent_genotype (gsl_ran_multinomial : Nat → Nat → List K → List Nat)
    (coi : Int) (allele_frequencies : List K) : List Int :=
  let tmp_alleles : List Int := List.replicate allele_frequencies.length 0
  let allele_index_vec : List Int := []
  let counts := gsl_ran_multinomial allele_frequencies.length (coi % 2 ^ 32).toNat
    allele_frequencies
  let tmp_alleles := forLoop allele_frequencies.length
    (fun k (t : List Int) => t.set k (toInt32 (counts.getD k 0))) tmp_alleles
  forLoop allele_frequencies.length
    (fun i (v : List Int) => if tmp_alleles.getD i 0 > 0 then v ++ [(i : Int)] else v)
    allele_index_vec

end Sampler

/-- Modelled from the spec: the table of the `Lookup` class, which is not
among the sources. The spec's contract for it is
`log_gamma[n] = log(Γ(n+1))` for every index `n` of the table. -/
def NumericLookupContract (log_gamma : List ℝ) : Prop :=
  ∀ n : Nat, n < log_gamma.length → log_gamma[n]? = some (Real.log (Real.Gamma ((n : ℝ) + 1)))

/-! ## GenotypingData -/

/-- The static members of `GenotypingData`: process-wide state that outlives
any one constructor call. -/
structure GenotypingData where
  observed_alleles : List (List (List Int))
  is_missing_ : List (List Bool)
  observed_coi : List Int
  num_alleles : List Int
  num_samples : Nat
  num_loci : Nat
  max_alleles : Int
deriving DecidableEq

/-- The static members at program start: empty vectors and zero integers. -/
def GenotypingData.initial : GenotypingData :=
  ⟨[], [], [], [], 0, 0, 0⟩

/-- The body of the sample loop (lines 35 to 44 of `genotyping_data.cpp`) for
locus `i` and sample `j`: `total_alleles` sums the allele vector of the
sample, and `observed_coi[j]` is raised to it when it is larger. -/
def GenotypingData.sample_body (i j : Nat) (s : GenotypingData) : Option GenotypingData := do
  let locus ← s.observed_alleles[i]?
  let cell ← locus[j]?
  let total_alleles : Int := forLoop cell.length (fun k t => t + cell.getD k 0) 0
  let s : GenotypingData :=
    if total_alleles > s.observed_coi.getD j 0 then
      { s with observed_coi := s.observed_coi.set j total_alleles }
    else s
  pure s

/-- The body of the locus loop (lines 27 to 45) for locus `i`:
`num_alleles[i]` is the size of the allele vector of sample `0`,
`max_alleles` is raised to it when it is larger, then the sample loop runs. -/
def GenotypingData.locus_body (i : Nat) (s : GenotypingData) : Option GenotypingData := do
  let locus ← s.observed_alleles[i]?
  let sample0 ← locus[0]?
  let s : GenotypingData := { s with num_alleles := s.num_alleles.set i sample0.length }
  let s : GenotypingData :=
    if s.num_alleles.getD i 0 > s.max_alleles then
      { s with max_alleles := s.num_alleles.getD i 0 }
    else s
  forLoopM s.num_samples (fun j s => GenotypingData.sample_body i j s) s

/-- The constructor `GenotypingData::GenotypingData`, run on the static
members `statics` as an earlier call (or program start) left them. `data` and
`is_missing` are the values of `r_to_array_int(args["data"])` and
`r_to_mat_bool(args["is_missing"])`. -/
def GenotypingData.construct (statics : GenotypingData) (data : List (List (List Int)))
    (is_missing : List (List Bool)) : Option GenotypingData := do
  let s : GenotypingData := { statics with observed_alleles := data, is_missing_ := is_missing }
  let s : GenotypingData := { s with num_loci := s.observed_alleles.length }
  let locus0 ← s.observed_alleles[0]?
  let s : GenotypingData := { s with num_samples := locus0.length }
  let s : GenotypingData := { s with num_alleles := List.replicate s.num_loci 0 }
  let s : GenotypingData := { s with observed_coi := List.replicate s.num_samples 0 }
  forLoopM s.num_loci (fun i s => GenotypingData.locus_body i s) s

/-- The sum `total_alleles` of the allele vector of sample `j` at locus `i`. -/
def total_alleles (data : List (List (List Int))) (i j : Nat) : Int :=
  ((data.getD i []).getD j []).sum

/-- The size of the allele vector of sample `0` at locus `i`, as an `int`. -/
def first_size (data : List (List (List Int))) (i : Nat) : Int :=
  (((data.getD i []).getD 0 []).length : Int)

/-- The static members after the first `i` rounds of the locus loop, in closed
form: a running maximum over the loci `0 .. i-1` for `max_alleles` (from the
value the statics held) and for every `observed_coi[j]` (from `0`). -/
def GenotypingData.after_loci (statics : GenotypingData) (data : List (List (List Int)))
    (is_missing : List (List Bool)) (i : Nat) : GenotypingData :=
  { observed_alleles := data
    is_missing_ := is_missing
    observed_coi := (List.range (data.getD 0 []).length).map (fun j =>
      (List.range i).foldl (fun m i' => max m (total_alleles data i' j)) 0)
    num_alleles := (List.range data.length).map (fun i' =>
      if i' < i then first_size data i' else 0)
    num_samples := (data.getD 0 []).length
    num_loci := data.length
    max_alleles := (List.range i).foldl (fun m i' => max m (first_size data i'))
      statics.max_alleles }

/-- Method `GenotypingData::get_observed_alleles`: `.at(locus).at(sample)`, where an
index out of range (a negative `int` included) throws. -/
def GenotypingData.get_observed_alleles (s : GenotypingData) (locus sample : Int) :
    Option (List Int) :=
  if locus < 0 ∨ sample < 0 then none
  else (s.observed_alleles[locus.toNat]?).bind (fun l => l[sample.toNat]?)

/-- Method `GenotypingData::is_missing`. -/
def GenotypingData.is_missing (s : GenotypingData) (locus sample : Int) : Option Bool :=
  if locus < 0 ∨ sample < 0 then none
  else (s.is_missing_[locus.toNat]?).bind (fun l => l[sample.toNat]?)

/-! ## Loop lemmas -/

theorem forLoop_zero {σ : Type} (body : Nat → σ → σ) (init : σ) :
    forLoop 0 body init = init := rfl

theorem forLoop_succ {σ : Type} (n : Nat) (body : Nat → σ → σ) (init : σ) :
    forLoop (n + 1) body init = body n (forLoop n body init) := by
  simp [forLoop, List.range_succ, List.foldl_append]

theorem forLoopM_zero {σ : Type} (body : Nat → σ → Option σ) (init : σ) :
    forLoopM 0 body init = some init := rfl

theorem forLoopM_succ {σ : Type} (n : Nat) (body : Nat → σ → Option σ) (init : σ) :
    forLoopM (n + 1) body init = (forLoopM n body init).bind (body n) := by
  simp only [forLoopM, List.range_succ, List.foldlM_append]
  cases h : List.foldlM (fun s i => body i s) init (List.range n) <;>
    simp [List.foldlM, bind, pure]

theorem forLoop_set_length {α : Type} (g : Nat → List α → α) (l : List α) (m : Nat) :
    (forLoop m (fun i (l : List α) => l.set i (g i l)) l).length = l.length := by
  induction m with
  | zero => simp [forLoop_zero]
  | succ m ih => rw [forLoop_succ, List.length_set, ih]

/-- A loop that rewrites slot `i` from its own old content at step `i` leaves,
after `m` steps, the first `m` slots rewritten and the others untouched. -/
theorem forLoop_set_getElem? {α : Type} (d : α) (h : Nat → α → α) (l : List α) (m : Nat) :
    ∀ i : Nat, (forLoop m (fun i (l : List α) => l.set i (h i (l.getD i d))) l)[i]? =
      if i < m then (l[i]?).map (h i) else l[i]? := by
  induction m with
  | zero => simp [forLoop_zero]
  | succ m ih =>
    intro i
    rw [forLoop_succ, List.getElem?_set,
      forLoop_set_length (fun i (l : List α) => h i (l.getD i d)), ih i]
    by_cases hmi : m = i
    · subst hmi
      rw [if_pos rfl, List.getD_eq_getElem?_getD, ih m]
      simp only [lt_self_iff_false, if_false, Nat.lt_succ_self, if_true]
      by_cases hm : m < l.length
      · simp [hm, List.getElem?_eq_getElem hm]
      · simp [hm, List.getElem?_eq_none (not_lt.mp hm)]
    · rw [if_neg hmi]
      by_cases him : i < m
      · simp [him, Nat.lt_succ_of_lt him]
      · have : ¬ i < m + 1 := by omega
        simp [him, this]

/-- A loop that stores `f i` in slot `i` of a list of length `n` produces
the list of the `f i`. -/
theorem forLoop_fill {α : Type} (d : α) (f : Nat → α) (n : Nat) :
    forLoop n (fun i (l : List α) => l.set i (f i)) (List.replicate n d) =
      (List.range n).map f := by
  apply List.ext_getElem?
  intro i
  have h := forLoop_set_getElem? d (fun i _ => f i) (List.replicate n d) n i
  simp only at h
  rw [h, List.getElem?_replicate]
  by_cases hi : i < n
  · simp [hi, List.getElem?_range hi]
  · simp [hi, List.getElem?_eq_none (l := List.range n) (by simpa using not_lt.mp hi)]

/-- A loop that rewrites every slot of a list by `h` is a `map`. -/
theorem forLoop_rewrite {α : Type} (d : α) (h : α → α) (l : List α) :
    forLoop l.length (fun i (l : List α) => l.set i (h (l.getD i d))) l = l.map h := by
  apply List.ext_getElem?
  intro i
  have h1 := forLoop_set_getElem? d (fun _ a => h a) l l.length i
  simp only at h1
  rw [h1, List.getElem?_map]
  by_cases hi : i < l.length
  · simp [hi]
  · simp [hi, List.getElem?_eq_none (not_lt.mp hi)]

/-! ## Sampler theorems -/

section SamplerTheorems

variable {K : Type} [LinearOrderedField K]

/-- The shape shared by the first loops of `rdirichlet` and `rlogit_norm`:
slot `i` receives the variate drawn at engine position `eng`, the running sum
reads the slot back, and the engine advances by one. -/
theorem forLoop_draw_sum (val : Nat → Nat → K) (l : List K) (a : K) (e m : Nat)
    (hm : m ≤ l.length) :
    forLoop m (fun i (st : List K × K × Nat) =>
        (st.1.set i (val i st.2.2), st.2.1 + (st.1.set i (val i st.2.2)).getD i 0, st.2.2 + 1))
      (l, a, e) =
    (forLoop m (fun i (l : List K) => l.set i (val i (e + i))) l,
      a + ((List.range m).map (fun i => val i (e + i))).sum, e + m) := by
  induction m with
  | zero => simp [forLoop_zero]
  | succ m ih =>
    rw [forLoop_succ, ih (Nat.le_of_succ_le hm), forLoop_succ]
    have hlen : m < (forLoop m (fun i (l : List K) => l.set i (val i (e + i))) l).length := by
      rw [forLoop_set_length (fun i _ => val i (e + i))]
      exact hm
    simp only [List.getD_eq_getElem?_getD, List.getElem?_set, if_pos rfl, if_pos hlen,
      Option.getD_some, List.range_succ, List.map_append, List.sum_append, List.map_cons,
      List.map_nil, List.sum_cons, List.sum_nil, add_zero, add_assoc, if_true]

/-- The vector `rdirichlet` returns, in closed form: the clamped draws, each
divided by their sum. -/
theorem rdirichlet_eq (UNDERFLO OVERFLO : K) (gamma_distr : K → K → Nat → K)
    (shape_vec : List K) (eng : Nat) :
    rdirichlet UNDERFLO OVERFLO gamma_distr shape_vec eng =
      ((List.range shape_vec.length).map (fun i =>
          (rgamma UNDERFLO OVERFLO gamma_distr (shape_vec.getD i 0) 1 (eng + i)).1 *
            (1 / ((List.range shape_vec.length).map (fun j =>
              (rgamma UNDERFLO OVERFLO gamma_distr (shape_vec.getD j 0) 1 (eng + j)).1)).sum)),
        eng + shape_vec.length) := by
  have h1 := forLoop_draw_sum
    (fun i e => (rgamma UNDERFLO OVERFLO gamma_distr (shape_vec.getD i 0) 1 e).1)
    (List.replicate shape_vec.length 0) 0 eng shape_vec.length (by simp)
  have h2 : ∀ (i : Nat) (st : List K × K × Nat),
      (rgamma UNDERFLO OVERFLO gamma_distr (shape_vec.getD i 0) 1 st.2.2).2 = st.2.2 + 1 :=
    fun _ _ => rfl
  simp only [rdirichlet, h2]
  rw [h1]
  simp only [zero_add]
  rw [forLoop_fill 0 (fun i => (rgamma UNDERFLO OVERFLO gamma_distr (shape_vec.getD i 0) 1
    (eng + i)).1) shape_vec.length]
  rw [forLoop_rewrite 0 (fun a => a * (1 / ((List.range shape_vec.length).map (fun j =>
    (rgamma UNDERFLO OVERFLO gamma_distr (shape_vec.getD j 0) 1 (eng + j)).1)).sum))]
  rw [List.map_map]
  rfl

/-- The value `rgamma` returns is never below `UNDERFLO`. -/
theorem rgamma_lower (UNDERFLO OVERFLO : K) (gamma_distr : K → K → Nat → K)
    (alpha beta : K) (eng : Nat) (hUO : UNDERFLO ≤ OVERFLO) :
    UNDERFLO ≤ (rgamma UNDERFLO OVERFLO gamma_distr alpha beta eng).1 := by
  simp only [rgamma]
  split_ifs with h1 h2
  · exact le_refl _
  · exact hUO
  · exact not_lt.mp h1

/-- C1: with `0 < UNDERFLO ≤ OVERFLO`, for every non-empty shape vector and
every sequence of gamma draws, `rdirichlet` returns a vector of the length of
the shape vector whose components are all `≥ 0` and sum to exactly `1`. -/
theorem rdirichlet_simplex (UNDERFLO OVERFLO : K) (gamma_distr : K → K → Nat → K)
    (shape_vec : List K) (eng : Nat) (hU : 0 < UNDERFLO) (hUO : UNDERFLO ≤ OVERFLO)
    (hne : shape_vec ≠ []) :
    (rdirichlet UNDERFLO OVERFLO gamma_distr shape_vec eng).1.length = shape_vec.length ∧
    (∀ x ∈ (rdirichlet UNDERFLO OVERFLO gamma_distr shape_vec eng).1, 0 ≤ x) ∧
    (rdirichlet UNDERFLO OVERFLO gamma_distr shape_vec eng).1.sum = 1 := by
  rw [rdirichlet_eq]
  have hpos : ∀ i : Nat,
      0 < (rgamma UNDERFLO OVERFLO gamma_distr (shape_vec.getD i 0) 1 (eng + i)).1 :=
    fun i => lt_of_lt_of_le hU (rgamma_lower _ _ _ _ _ _ hUO)
  have hlen : 0 < shape_vec.length := List.length_pos.mpr hne
  have hS : 0 < ((List.range shape_vec.length).map (fun j =>
      (rgamma UNDERFLO OVERFLO gamma_distr (shape_vec.getD j 0) 1 (eng + j)).1)).sum := by
    apply List.sum_pos
    · intro x hx
      obtain ⟨i, _, rfl⟩ := List.mem_map.mp hx
      exact hpos i
    · intro h
      have h0 := congrArg List.length h
      rw [List.length_map, List.length_range, List.length_nil] at h0
      omega
  refine ⟨by simp, ?_, ?_⟩
  · intro x hx
    obtain ⟨i, _, rfl⟩ := List.mem_map.mp hx
    exact le_of_lt (mul_pos (hpos i) (one_div_pos.mpr hS))
  · show (List.map _ _).sum = 1
    rw [List.sum_map_mul_right]
    exact mul_one_div_cancel (ne_of_gt hS)

/-- Witness for C1: three shapes, raw draws `0`, `2`, `500` clamped to
`[1/100, 100]`. -/
theorem rdirichlet_simplex_witness :
    (rdirichlet (1 / 100 : ℚ) 100 (fun a _ i => a * i) [1, 2, 250] 0).1.length = 3 ∧
    (∀ x ∈ (rdirichlet (1 / 100 : ℚ) 100 (fun a _ i => a * i) [1, 2, 250] 0).1, 0 ≤ x) ∧
    (rdirichlet (1 / 100 : ℚ) 100 (fun a _ i => a * i) [1, 2, 250] 0).1.sum = 1 :=
  rdirichlet_simplex (1 / 100 : ℚ) 100 (fun a _ i => a * i) [1, 2, 250] 0
    (by norm_num) (by norm_num) (by simp)

/-- The sum of a list of the values of `f` on `0 .. n-1` as a finite sum. -/
theorem sum_map_range_eq (f : Nat → K) (n : Nat) :
    ((List.range n).map f).sum = Finset.sum (Finset.range n) f := by
  induction n with
  | zero => simp
  | succ n ih => simp [List.range_succ, Finset.sum_range_succ, ih]

/-- The value `rlogit_norm` returns on a non-empty `p`, in closed form. -/
theorem rlogit_norm_eq (log exp : K → K) (norm_distr : K → K → Nat → K)
    (p : List K) (variance : K) (eng : Nat) (hne : p ≠ []) :
    rlogit_norm log exp norm_distr p variance eng =
      some ((List.range (p.length - 1)).map (fun i =>
          rlogit_norm_draw log exp norm_distr p variance eng i *
            (1 / (1 + ((List.range (p.length - 1)).map
              (rlogit_norm_draw log exp norm_distr p variance eng)).sum))) ++
        [1 / (1 + ((List.range (p.length - 1)).map
              (rlogit_norm_draw log exp norm_distr p variance eng)).sum)],
        eng + (p.length - 1)) := by
  have hlen : 0 < p.length := List.length_pos.mpr hne
  have hn : ¬ ((p.length : Int) - 1 < 0) := by omega
  have ht : ((p.length : Int) - 1).toNat = p.length - 1 := by omega
  simp only [rlogit_norm, if_neg hn, ht]
  have h1 := forLoop_draw_sum
    (fun i e => exp (norm_distr (log (p.getD i 0 / p.getD (p.length - 1) 0)) variance e))
    (List.replicate (p.length - 1 + 1) 0) 0 eng (p.length - 1) (by simp)
  rw [h1]
  simp only [zero_add]
  congr 2
  apply List.ext_getElem?
  intro i
  rw [List.getElem?_set, forLoop_set_length (fun i (l : List K) => l.getD i 0 * _),
    forLoop_set_length (fun i _ => exp (norm_distr _ variance (eng + i))),
    forLoop_set_getElem? 0 (fun _ a => a * _),
    forLoop_set_getElem? 0 (fun i _ => exp (norm_distr _ variance (eng + i))),
    List.getElem?_replicate, List.length_replicate]
  by_cases hi : i < p.length - 1
  · have h2 : ¬ (p.length - 1 = i) := by omega
    have h3 : i < p.length - 1 + 1 := by omega
    rw [if_neg h2, if_pos hi, if_pos hi, if_pos h3, List.getElem?_append_left (by simpa using hi),
      List.getElem?_map, List.getElem?_range hi]
    rfl
  · by_cases h2 : p.length - 1 = i
    · rw [if_pos h2, if_pos (by omega), List.getElem?_append_right (by simp; omega)]
      simp only [h2, List.length_map, List.length_range, Nat.sub_self, List.getElem?_cons_zero]
      unfold rlogit_norm_draw
      simp only [h2]
    · have h3 : ¬ i < p.length - 1 + 1 := by omega
      rw [if_neg h2, if_neg hi, if_neg hi, if_neg h3,
        List.getElem?_eq_none (by simp; omega)]

/-- C7: for every non-empty `p` (of length `n + 1`) and every sequence of
normal draws `z 0 .. z (n-1)`, `rlogit_norm` returns a vector `ret` of length
`n + 1` with `ret[i] = exp (z i) / (1 + ∑ j < n, exp (z j))` for `i < n` and
`ret[n] = 1 / (1 + ∑ j < n, exp (z j))`; every component is strictly positive
and the components sum to exactly `1`. -/
theorem rlogit_norm_simplex (norm_distr : ℝ → ℝ → Nat → ℝ) (p : List ℝ) (variance : ℝ)
    (eng : Nat) (z : Nat → ℝ) (hne : p ≠ [])
    (hz : ∀ i, z i =
      norm_distr (Real.log (p.getD i 0 / p.getD (p.length - 1) 0)) variance (eng + i)) :
    ∃ ret : List ℝ,
      rlogit_norm Real.log Real.exp norm_distr p variance eng =
        some (ret, eng + (p.length - 1)) ∧
      ret.length = p.length ∧
      (∀ i, i < p.length - 1 → ret[i]? = some (Real.exp (z i) /
        (1 + Finset.sum (Finset.range (p.length - 1)) (fun j => Real.exp (z j))))) ∧
      ret[p.length - 1]? =
        some (1 / (1 + Finset.sum (Finset.range (p.length - 1)) (fun j => Real.exp (z j)))) ∧
      (∀ x ∈ ret, 0 < x) ∧
      ret.sum = 1 := by
  have hd : rlogit_norm_draw Real.log Real.exp norm_distr p variance eng =
      fun i => Real.exp (z i) := by
    funext i
    rw [hz i]
    rfl
  have hlen : 0 < p.length := List.length_pos.mpr hne
  have hS : 0 < 1 + Finset.sum (Finset.range (p.length - 1)) (fun j => Real.exp (z j)) :=
    add_pos_of_pos_of_nonneg one_pos (Finset.sum_nonneg (fun j _ => le_of_lt (Real.exp_pos _)))
  refine ⟨_, rlogit_norm_eq Real.log Real.exp norm_distr p variance eng hne, ?_, ?_, ?_, ?_, ?_⟩
  · simp only [List.length_append, List.length_map, List.length_range, List.length_singleton]
    omega
  · intro i hi
    rw [List.getElem?_append_left (by simpa using hi), List.getElem?_map,
      List.getElem?_range hi, hd, sum_map_range_eq]
    simp only [Option.map_some', mul_one_div]
  · rw [List.getElem?_append_right (by simp), hd, sum_map_range_eq]
    simp
  · intro x hx
    rw [hd, sum_map_range_eq] at hx
    rcases List.mem_append.mp hx with h | h
    · obtain ⟨i, _, rfl⟩ := List.mem_map.mp h
      exact mul_pos (Real.exp_pos _) (one_div_pos.mpr hS)
    · rw [List.mem_singleton] at h
      rw [h]
      exact one_div_pos.mpr hS
  · rw [hd, List.sum_append, List.sum_map_mul_right, sum_map_range_eq, List.sum_singleton]
    field_simp
    ring

/-- Witness for C7: `p = [1/4, 1/4, 1/2]`, each normal draw equal to its
mean. -/
theorem rlogit_norm_simplex_witness :
    ∃ ret : List ℝ,
      rlogit_norm Real.log Real.exp (fun m _ _ => m) [1 / 4, 1 / 4, 1 / 2] 1 0 =
        some (ret, 2) ∧
      ret.length = 3 ∧ (∀ x ∈ ret, 0 < x) ∧ ret.sum = 1 := by
  obtain ⟨ret, h1, h2, _, _, h5, h6⟩ :=
    rlogit_norm_simplex (fun m _ _ => m) [1 / 4, 1 / 4, 1 / 2] 1 0
      (fun i => Real.log (([1 / 4, 1 / 4, 1 / 2] : List ℝ).getD i 0 /
        ([1 / 4, 1 / 4, 1 / 2] : List ℝ).getD (([1 / 4, 1 / 4, 1 / 2] : List ℝ).length - 1) 0))
      (by simp) (fun _ => rfl)
  exact ⟨ret, h1, h2, h5, h6⟩

/-- C6: with `UNDERFLO ≤ OVERFLO`, for every shape and scale and every raw draw
`x` of the gamma generator, `rgamma` returns a value in `[UNDERFLO, OVERFLO]`:
`UNDERFLO` when `x < UNDERFLO`, `OVERFLO` when `x > OVERFLO`, and `x` itself
otherwise. -/
theorem rgamma_clamped (UNDERFLO OVERFLO : K) (gamma_distr : K → K → Nat → K)
    (alpha beta : K) (eng : Nat) (hUO : UNDERFLO ≤ OVERFLO) :
    UNDERFLO ≤ (rgamma UNDERFLO OVERFLO gamma_distr alpha beta eng).1 ∧
    (rgamma UNDERFLO OVERFLO gamma_distr alpha beta eng).1 ≤ OVERFLO ∧
    (gamma_distr alpha beta eng < UNDERFLO →
      (rgamma UNDERFLO OVERFLO gamma_distr alpha beta eng).1 = UNDERFLO) ∧
    (gamma_distr alpha beta eng > OVERFLO →
      (rgamma UNDERFLO OVERFLO gamma_distr alpha beta eng).1 = OVERFLO) ∧
    (UNDERFLO ≤ gamma_distr alpha beta eng → gamma_distr alpha beta eng ≤ OVERFLO →
      (rgamma UNDERFLO OVERFLO gamma_distr alpha beta eng).1 = gamma_distr alpha beta eng) := by
  simp only [rgamma]
  refine ⟨?_, ?_, ?_, ?_, ?_⟩
  · split_ifs with h1 h2
    · exact le_refl _
    · exact hUO
    · exact not_lt.mp h1
  · split_ifs with h1 h2
    · exact hUO
    · exact le_refl _
    · exact not_lt.mp h2
  · intro h
    rw [if_pos h]
  · intro h
    have h1 : ¬ gamma_distr alpha beta eng < UNDERFLO := not_lt.mpr (le_trans hUO (le_of_lt h))
    rw [if_neg h1, if_pos h]
  · intro h1 h2
    rw [if_neg (not_lt.mpr h1), if_neg (not_lt.mpr h2)]

/-- Witness for C6: a raw draw `500` with the clamp `[1/100, 100]`. -/
theorem rgamma_clamped_witness :
    (1 / 100 : ℚ) ≤ (rgamma (1 / 100 : ℚ) 100 (fun _ _ _ => 500) 2 1 0).1 ∧
    (rgamma (1 / 100 : ℚ) 100 (fun _ _ _ => 500) 2 1 0).1 ≤ 100 ∧
    (rgamma (1 / 100 : ℚ) 100 (fun _ _ _ => 500) 2 1 0).1 = 100 := by
  obtain ⟨h1, h2, _, h4, _⟩ :=
    rgamma_clamped (1 / 100 : ℚ) 100 (fun _ _ _ => 500) 2 1 0 (by norm_num)
  exact ⟨h1, h2, h4 (by norm_num)⟩

/-- The zero-truncated Poisson log-pmf, split into the three terms of
`dztpois`. -/
theorem log_ztpois_pmf (x : Nat) (lam : ℝ) (hlam : 0 < lam) :
    Real.log (lam ^ x / ((Real.exp lam - 1) * (x.factorial : ℝ))) =
      (x : ℝ) * Real.log lam - Real.log (Real.exp lam - 1) - Real.log (x.factorial : ℝ) := by
  have h1 : lam ^ x ≠ 0 := pow_ne_zero _ (ne_of_gt hlam)
  have h2 : Real.exp lam - 1 ≠ 0 := by
    have := Real.add_one_lt_exp (ne_of_gt hlam)
    linarith
  have h3 : (x.factorial : ℝ) ≠ 0 := Nat.cast_ne_zero.mpr (Nat.factorial_ne_zero x)
  rw [Real.log_div h1 (mul_ne_zero h2 h3), Real.log_mul h2 h3, Real.log_pow]
  ring

/-- The value of `dztpois` at a count `x ≥ 0` whose table slot holds `t`. -/
theorem dztpois_eq (log exp : K → K) (tab : List K) (x : Nat) (lam t : K)
    (ht : tab[x + 1]? = some t) :
    dztpois log exp tab (x : Int) lam = some ((x : K) * log lam - log (exp lam - 1) - t) := by
  have h0 : (0 : Int) ≤ (x : Int) + 1 := by omega
  have h1 : ((x : Int) + 1).toNat = x + 1 := by omega
  simp only [dztpois, if_pos h0, h1, ht, Option.map_some', Int.cast_natCast]

end SamplerTheorems

/-- Counterexample to C2: the table `[log Γ(1), log Γ(2), log Γ(3)]` meets the
contract `log_gamma[n] = log Γ(n + 1)`, and with it `dztpois(1, 1)` is
`-log (e - 1) - log 2`, not the zero-truncated Poisson log-pmf
`log (1 ^ 1 / ((e - 1) * 1!)) = -log (e - 1)`. -/
theorem dztpois_contract_counterexample :
    NumericLookupContract [0, 0, Real.log 2] ∧
    dztpois Real.log Real.exp [0, 0, Real.log 2] 1 1 =
      some (-Real.log (Real.exp 1 - 1) - Real.log 2) ∧
    dztpois Real.log Real.exp [0, 0, Real.log 2] 1 1 ≠
      some (Real.log ((1 : ℝ) ^ 1 / ((Real.exp 1 - 1) * (Nat.factorial 1 : ℝ)))) ∧
    dztpois Real.log Real.exp [0, 0, Real.log 2] 1 1 ≠ some (-Real.log (Real.exp 1 - 1)) := by
  have hv : dztpois Real.log Real.exp [0, 0, Real.log 2] 1 1 =
      some (-Real.log (Real.exp 1 - 1) - Real.log 2) := by
    have h := dztpois_eq Real.log Real.exp [0, 0, Real.log 2] 1 1 (Real.log 2) rfl
    simp only [Nat.cast_one, Real.log_one, mul_zero, zero_sub] at h
    exact h
  have h2 : Real.log 2 ≠ 0 := ne_of_gt (Real.log_pos (by norm_num))
  refine ⟨?_, hv, ?_, ?_⟩
  · intro n hn
    have hn3 : n < 3 := hn
    rw [Real.Gamma_nat_eq_factorial]
    interval_cases n <;> simp [Nat.factorial]
  · rw [hv, log_ztpois_pmf 1 1 one_pos]
    simp only [Nat.cast_one, Real.log_one, mul_zero, zero_sub, Nat.factorial_one, sub_zero]
    intro h
    apply h2
    have := Option.some.inj h
    linarith
  · rw [hv]
    intro h
    apply h2
    have := Option.some.inj h
    linarith

/-- Under the contract `log_gamma[n] = log Γ(n + 1)` the value of `dztpois`
carries `(x + 1)!` where the zero-truncated Poisson log-pmf has `x!`. -/
theorem dztpois_under_contract (tab : List ℝ) (x : Nat) (lam : ℝ) (hlam : 0 < lam)
    (htab : NumericLookupContract tab) (hx : x + 1 < tab.length) :
    dztpois Real.log Real.exp tab (x : Int) lam =
      some (Real.log (lam ^ x / ((Real.exp lam - 1) * ((x + 1).factorial : ℝ)))) := by
  have h1 := htab (x + 1) hx
  rw [dztpois_eq Real.log Real.exp tab x lam _ h1]
  have h2 : Real.Gamma (((x + 1 : ℕ) : ℝ) + 1) = ((x + 1).factorial : ℝ) :=
    Real.Gamma_nat_eq_factorial (x + 1)
  have h3 : lam ^ x ≠ 0 := pow_ne_zero _ (ne_of_gt hlam)
  have h4 : Real.exp lam - 1 ≠ 0 := by
    have := Real.add_one_lt_exp (ne_of_gt hlam)
    linarith
  have h5 : ((x + 1).factorial : ℝ) ≠ 0 := Nat.cast_ne_zero.mpr (Nat.factorial_ne_zero _)
  rw [h2, Real.log_div h3 (mul_ne_zero h4 h5), Real.log_mul h4 h5, Real.log_pow]
  congr 1
  ring

/-- C2 (amended): for every `lambda > 0` and every count `x ≥ 0` whose slot
`x + 1` of the table holds `t`, `dztpois(x, lambda)` is
`x * log lambda - log (exp lambda - 1) - t`. It is the zero-truncated Poisson
log-pmf `log (lambda ^ x / ((exp lambda - 1) * x!))` exactly when
`t = log Γ(x + 1) = log x!`, that is for a table holding `log Γ(n)` at index
`n`; in particular `dztpois(1, 1) = -log (e - 1)` when `log_gamma[2] = 0`. -/
theorem dztpois_ztp_iff (tab : List ℝ) (x : Nat) (lam t : ℝ) (hlam : 0 < lam)
    (ht : tab[x + 1]? = some t) :
    dztpois Real.log Real.exp tab (x : Int) lam =
      some ((x : ℝ) * Real.log lam - Real.log (Real.exp lam - 1) - t) ∧
    (dztpois Real.log Real.exp tab (x : Int) lam =
        some (Real.log (lam ^ x / ((Real.exp lam - 1) * (x.factorial : ℝ)))) ↔
      t = Real.log (Real.Gamma ((x : ℝ) + 1))) ∧
    (x = 1 → lam = 1 → t = 0 →
      dztpois Real.log Real.exp tab 1 1 = some (-Real.log (Real.exp 1 - 1))) := by
  have hv := dztpois_eq Real.log Real.exp tab x lam t ht
  refine ⟨hv, ?_, ?_⟩
  · rw [hv, log_ztpois_pmf x lam hlam, Real.Gamma_nat_eq_factorial]
    constructor
    · intro h
      have := Option.some.inj h
      linarith
    · intro h
      rw [h]
  · intro hx hl h0
    subst hx hl h0
    have h := hv
    simp only [Nat.cast_one, Real.log_one, mul_zero, zero_sub, sub_zero] at h
    exact h

/-- Witness for C2 (amended): the table `[0, 0, 0]`, whose slot `2` holds
`log Γ(2) = 0`, at `x = 1`, `lambda = 1`. -/
theorem dztpois_ztp_iff_witness :
    dztpois Real.log Real.exp [0, 0, 0] 1 1 = some (-Real.log (Real.exp 1 - 1)) :=
  (dztpois_ztp_iff [0, 0, 0] 1 1 0 one_pos rfl).2.2 rfl rfl rfl

/-! ## Latent genotype and COI proposal -/

section Genotype

variable {K : Type}

/-- A loop that appends the index `i` when `P i` holds collects the indices
below `m` that satisfy `P`, in increasing order. -/
theorem forLoop_push (P : Nat → Prop) [DecidablePred P] (m : Nat) :
    forLoop m (fun i (v : List Int) => if P i then v ++ [(i : Int)] else v) [] =
      ((List.range m).filter (fun i => decide (P i))).map (fun i : Nat => (i : Int)) := by
  induction m with
  | zero => simp [forLoop_zero]
  | succ m ih =>
    rw [forLoop_succ, ih, List.range_succ, List.filter_append, List.map_append]
    by_cases hP : P m
    · simp [hP]
    · simp [hP]

/-- A 32-bit word below `2 ^ 31` reads the same as `unsigned int` and as `int`. -/
theorem toInt32_of_lt (u : Nat) (hu : u < 2 ^ 31) : toInt32 u = (u : Int) := by
  have h1 : u % 2 ^ 32 = u := Nat.mod_eq_of_lt (by omega)
  simp only [toInt32, h1, if_pos hu]

/-- The number of positive entries among the first `m` is at most their sum. -/
theorem length_filter_pos_le_sum (cnt : List Nat) (m : Nat) :
    ((List.range m).filter (fun i => decide (0 < cnt.getD i 0))).length ≤ (cnt.take m).sum := by
  induction m with
  | zero => simp
  | succ m ih =>
    rw [List.range_succ, List.filter_append, List.length_append, List.take_succ,
      List.sum_append]
    have h : ((List.filter (fun i => decide (0 < cnt.getD i 0)) [m]).length) ≤
        (cnt[m]?.toList).sum := by
      simp only [List.getD_eq_getElem?_getD]
      cases hc : cnt[m]? with
      | none => simp [hc]
      | some a =>
        by_cases ha : 0 < a
        · simp [hc, ha]
          omega
        · simp [hc, ha]
    omega

/-- When none of the first `m` entries is positive their sum is zero. -/
theorem sum_take_eq_zero (cnt : List Nat) (m : Nat)
    (h : ∀ i, i < m → ¬ 0 < cnt.getD i 0) : (cnt.take m).sum = 0 := by
  induction m with
  | zero => simp
  | succ m ih =>
    rw [List.take_succ, List.sum_append, ih (fun i hi => h i (Nat.lt_succ_of_lt hi))]
    have hm := h m (Nat.lt_succ_self m)
    rw [List.getD_eq_getElem?_getD] at hm
    cases hc : cnt[m]? with
    | none => simp
    | some a =>
      rw [hc] at hm
      simp at hm
      simp [hm]

/-- The list `sample_latent_genotype` returns when the count vector has the
length of the frequency vector and its entries are below `2 ^ 31`. -/
theorem sample_latent_genotype_eq (cnt : List Nat) (coi : Int) (allele_frequencies : List K)
    (hlen : cnt.length = allele_frequencies.length) (hc : ∀ x ∈ cnt, x < 2 ^ 31) :
    sample_latent_genotype (fun _ _ _ => cnt) coi allele_frequencies =
      ((List.range allele_frequencies.length).filter (fun i => decide (0 < cnt.getD i 0))).map
        (fun i : Nat => (i : Int)) := by
  simp only [sample_latent_genotype]
  rw [forLoop_fill 0 (fun k => toInt32 (cnt.getD k 0)), forLoop_push]
  congr 1
  apply List.filter_congr
  intro i hi
  have hi2 : i < allele_frequencies.length := List.mem_range.mp hi
  have hi3 : i < cnt.length := by omega
  have hget : cnt.getD i 0 = cnt[i] := by
    rw [List.getD_eq_getElem?_getD, List.getElem?_eq_getElem hi3, Option.getD_some]
  have hci : cnt[i] < 2 ^ 31 := hc _ (List.getElem_mem hi3)
  have h1 : (List.map (fun k => toInt32 (cnt.getD k 0))
      (List.range allele_frequencies.length)).getD i 0 = (cnt[i] : Int) := by
    rw [List.getD_eq_getElem?_getD, List.getElem?_map, List.getElem?_range hi2]
    simp only [Option.map_some', Option.getD_some, hget]
    exact toInt32_of_lt _ hci
  rw [h1, hget]
  simp

/-- C5: for every `coi ≥ 0` (an `int`, so below `2 ^ 31`), every frequency
vector of length `n` and every multinomial count vector `cnt` of length `n`
with (non-negative) entries summing to `coi`, `sample_latent_genotype` returns
the strictly increasing list of exactly the indices `i < n` with `cnt[i] > 0`;
it has at most `min(coi, n)` elements, and at least one when `coi ≥ 1`. -/
theorem sample_latent_genotype_support (cnt : List Nat) (coi : Int)
    (allele_frequencies : List K) (hcoi : coi < 2 ^ 31)
    (hlen : cnt.length = allele_frequencies.length) (hsum : (cnt.sum : Int) = coi) :
    List.Pairwise (fun a b : Int => a < b)
      (sample_latent_genotype (fun _ _ _ => cnt) coi allele_frequencies) ∧
    (∀ z : Int, z ∈ sample_latent_genotype (fun _ _ _ => cnt) coi allele_frequencies ↔
      ∃ i : Nat, z = (i : Int) ∧ i < allele_frequencies.length ∧ 0 < cnt.getD i 0) ∧
    ((sample_latent_genotype (fun _ _ _ => cnt) coi allele_frequencies).length : Int) ≤
      min coi (allele_frequencies.length : Int) ∧
    (1 ≤ coi → 1 ≤ (sample_latent_genotype (fun _ _ _ => cnt) coi allele_frequencies).length) := by
  have hbound : ∀ x ∈ cnt, x < 2 ^ 31 := by
    intro x hx
    have h1 : x ≤ cnt.sum := List.single_le_sum (fun _ _ => Nat.zero_le _) x hx
    omega
  rw [sample_latent_genotype_eq cnt coi allele_frequencies hlen hbound]
  have htake : (cnt.take allele_frequencies.length).sum = cnt.sum := by
    rw [List.take_of_length_le (le_of_eq hlen)]
  refine ⟨?_, ?_, ?_, ?_⟩
  · exact List.Pairwise.map _ (fun a b hab => Int.ofNat_lt.mpr hab)
      (List.Pairwise.filter _ (List.pairwise_lt_range _))
  · intro z
    simp only [List.mem_map, List.mem_filter, List.mem_range, decide_eq_true_eq]
    constructor
    · rintro ⟨i, ⟨hi, hp⟩, rfl⟩
      exact ⟨i, rfl, hi, hp⟩
    · rintro ⟨i, rfl, hi, hp⟩
      exact ⟨i, ⟨hi, hp⟩, rfl⟩
  · rw [List.length_map]
    have h1 := length_filter_pos_le_sum cnt allele_frequencies.length
    have h2 := List.length_filter_le (fun i => decide (0 < cnt.getD i 0))
      (List.range allele_frequencies.length)
    rw [List.length_range] at h2
    rw [htake] at h1
    apply le_min
    · omega
    · omega
  · intro h1
    rw [List.length_map]
    by_contra hcon
    have h0 : (List.range allele_frequencies.length).filter
        (fun i => decide (0 < cnt.getD i 0)) = [] :=
      List.length_eq_zero.mp (by omega)
    rw [List.filter_eq_nil_iff] at h0
    have hz := sum_take_eq_zero cnt allele_frequencies.length (fun i hi => by
      have := h0 i (List.mem_range.mpr hi)
      simpa using this)
    rw [htake] at hz
    omega

/-- Witness for C5: `coi = 3` spread as counts `[0, 2, 0, 1]` over four
alleles gives the genotype `[1, 3]`. -/
theorem sample_latent_genotype_support_witness :
    sample_latent_genotype (fun _ _ _ => [0, 2, 0, 1]) 3 [(1 : ℚ) / 4, 1 / 4, 1 / 4, 1 / 4] =
      [1, 3] ∧
    List.Pairwise (fun a b : Int => a < b)
      (sample_latent_genotype (fun _ _ _ => [0, 2, 0, 1]) 3
        [(1 : ℚ) / 4, 1 / 4, 1 / 4, 1 / 4]) ∧
    1 ≤ (sample_latent_genotype (fun _ _ _ => [0, 2, 0, 1]) 3
        [(1 : ℚ) / 4, 1 / 4, 1 / 4, 1 / 4]).length :=
  ⟨by decide,
    (sample_latent_genotype_support [0, 2, 0, 1] 3 [(1 : ℚ) / 4, 1 / 4, 1 / 4, 1 / 4]
      (by norm_num) rfl rfl).1,
    (sample_latent_genotype_support [0, 2, 0, 1] 3 [(1 : ℚ) / 4, 1 / 4, 1 / 4, 1 / 4]
      (by norm_num) rfl rfl).2.2.2 (by norm_num)⟩

/-- The delta `sample_coi_delta` returns is the sign `2b - 1` times the
geometric draw `g`, so its absolute value is `g`. -/
theorem sample_coi_delta_value [LinearOrderedField K] (ber_distr : Nat → Bool)
    (geom_distr : K → Nat → Nat) (coi_prop_mean : K) (eng : Nat) :
    (sample_coi_delta ber_distr geom_distr coi_prop_mean eng).1 =
      (2 * (if ber_distr eng then 1 else 0) - 1) *
        (geom_distr (1 / (1 + coi_prop_mean)) eng : Int) ∧
    |(sample_coi_delta ber_distr geom_distr coi_prop_mean eng).1| =
      (geom_distr (1 / (1 + coi_prop_mean)) eng : Int) := by
  refine ⟨rfl, ?_⟩
  simp only [sample_coi_delta]
  cases ber_distr eng <;> simp [abs_mul]

/-- C10 (failing input): with proposal mean `1`, Bernoulli outcome `1` and
geometric draw `0`, `sample_coi_delta` returns `(2 * 1 - 1) * 0 = 0`, whose
absolute value is below `1`. -/
theorem sample_coi_delta_zero :
    (sample_coi_delta (fun _ => true) (fun _ _ => 0) (1 : ℚ) 0).1 = (2 * 1 - 1) * 0 ∧
    (sample_coi_delta (fun _ => true) (fun _ _ => 0) (1 : ℚ) 0).1 = 0 ∧
    ¬ 1 ≤ |(sample_coi_delta (fun _ => true) (fun _ _ => 0) (1 : ℚ) 0).1| := by
  refine ⟨rfl, rfl, ?_⟩
  rw [(sample_coi_delta_value (fun _ => true) (fun _ _ => 0) (1 : ℚ) 0).2]
  norm_num

end Genotype

/-! ## GenotypingData theorems -/

/-- A failing-body loop whose state follows `f` step by step ends in `f n`. -/
theorem forLoopM_of_step {σ : Type} (n : Nat) (body : Nat → σ → Option σ) (f : Nat → σ)
    (hstep : ∀ i, i < n → body i (f i) = some (f (i + 1))) :
    forLoopM n body (f 0) = some (f n) := by
  induction n with
  | zero => rfl
  | succ n ih =>
    rw [forLoopM_succ, ih (fun i hi => hstep i (Nat.lt_succ_of_lt hi)), Option.some_bind]
    exact hstep n (Nat.lt_succ_self n)

/-- The `total_alleles` loop computes the sum of the allele vector. -/
theorem forLoop_total (cell : List Int) (m : Nat) :
    forLoop m (fun k (t : Int) => t + cell.getD k 0) 0 = (cell.take m).sum := by
  induction m with
  | zero => simp [forLoop_zero]
  | succ m ih =>
    rw [forLoop_succ, ih, List.take_succ, List.sum_append, List.getD_eq_getElem?_getD]
    cases cell[m]? <;> simp

/-- Storing back the content of a slot changes nothing. -/
theorem set_getD_self {α : Type} (l : List α) (j : Nat) (d : α) : l.set j (l.getD j d) = l := by
  apply List.ext_getElem?
  intro k
  rw [List.getElem?_set, List.getD_eq_getElem?_getD]
  by_cases hjk : j = k
  · subst hjk
    by_cases hj : j < l.length
    · simp [hj, List.getElem?_eq_getElem hj]
    · simp [hj, List.getElem?_eq_none (not_lt.mp hj)]
  · simp [hjk]

/-- One round of the sample loop raises `observed_coi[j]` to the maximum of
its content and the sum of the allele vector, and changes nothing else. -/
theorem sample_body_eq (i j : Nat) (s : GenotypingData) (locus : List (List Int))
    (cell : List Int) (hl : s.observed_alleles[i]? = some locus) (hc : locus[j]? = some cell) :
    GenotypingData.sample_body i j s =
      some { s with observed_coi := s.observed_coi.set j (max (s.observed_coi.getD j 0) cell.sum) } := by
  simp only [GenotypingData.sample_body, hl, hc, Option.bind_eq_bind, Option.some_bind,
    forLoop_total, List.take_length, pure]
  by_cases h : cell.sum > s.observed_coi.getD j 0
  · rw [if_pos h, max_eq_right (le_of_lt h)]
  · rw [if_neg h, max_eq_left (not_lt.mp h), set_getD_self]

/-- The sample loop at locus `i`, run for `n` samples that the locus has. -/
theorem sample_loop_eq (i n : Nat) (s : GenotypingData) (locus : List (List Int))
    (hl : s.observed_alleles[i]? = some locus) (hn : n ≤ locus.length) :
    forLoopM n (fun j s => GenotypingData.sample_body i j s) s =
      some { s with observed_coi := forLoop n (fun j (oc : List Int) =>
        oc.set j ((fun j a => max a (locus.getD j []).sum) j (oc.getD j 0))) s.observed_coi } := by
  have h := forLoopM_of_step n (fun j s => GenotypingData.sample_body i j s)
    (fun m => { s with observed_coi := forLoop m (fun j (oc : List Int) =>
        oc.set j ((fun j a => max a (locus.getD j []).sum) j (oc.getD j 0))) s.observed_coi })
    (by
      intro j hj
      have hj2 : j < locus.length := lt_of_lt_of_le hj hn
      have hc : locus[j]? = some (locus.getD j []) := by
        rw [List.getD_eq_getElem?_getD, List.getElem?_eq_getElem hj2, Option.getD_some]
      simp only
      rw [forLoop_succ]
      exact sample_body_eq i j _ locus (locus.getD j []) hl hc)
  exact h

/-- The running maximum over the loci `0 .. i`. -/
theorem foldl_max_succ (f : Nat → Int) (a : Int) (i : Nat) :
    (List.range (i + 1)).foldl (fun m k => max m (f k)) a =
      max ((List.range i).foldl (fun m k => max m (f k)) a) (f i) := by
  rw [List.range_succ, List.foldl_append]
  rfl

/-- One round of the locus loop takes the closed form for `i` loci to the
closed form for `i + 1` loci. -/
theorem locus_body_eq (statics : GenotypingData) (data : List (List (List Int)))
    (is_missing : List (List Bool)) (i : Nat) (hi : i < data.length)
    (hrow : ∀ locus ∈ data, 1 ≤ locus.length ∧ (data.getD 0 []).length ≤ locus.length) :
    GenotypingData.locus_body i (GenotypingData.after_loci statics data is_missing i) =
      some (GenotypingData.after_loci statics data is_missing (i + 1)) := by
  have hl : data[i]? = some (data.getD i []) := by
    rw [List.getD_eq_getElem?_getD, List.getElem?_eq_getElem hi, Option.getD_some]
  have hmem : data.getD i [] ∈ data := by
    rw [List.getD_eq_getElem?_getD, List.getElem?_eq_getElem hi, Option.getD_some]
    exact List.getElem_mem hi
  obtain ⟨h1, h2⟩ := hrow _ hmem
  have h0 : (data.getD i [])[0]? = some ((data.getD i []).getD 0 []) := by
    rw [List.getD_eq_getElem?_getD (data.getD i []), List.getElem?_eq_getElem (by omega),
      Option.getD_some]
  have hget : ∀ x : Int, (((List.range data.length).map (fun i' =>
      if i' < i then first_size data i' else 0)).set i x).getD i 0 = x := by
    intro x
    rw [List.getD_eq_getElem?_getD, List.getElem?_set, if_pos rfl, if_pos (by simpa using hi),
      Option.getD_some]
  simp only [GenotypingData.locus_body, GenotypingData.after_loci, hl, h0, Option.bind_eq_bind,
    Option.some_bind, hget]
  have hfs : (((data.getD i []).getD 0 []).length : Int) = first_size data i := rfl
  rw [hfs]
  have hNA : ((List.range data.length).map (fun i' =>
      if i' < i then first_size data i' else 0)).set i (first_size data i) =
      (List.range data.length).map (fun i' => if i' < i + 1 then first_size data i' else 0) := by
    apply List.ext_getElem?
    intro k
    rw [List.getElem?_set, List.getElem?_map, List.getElem?_map, List.length_map,
      List.length_range]
    by_cases hik : i = k
    · subst hik
      rw [if_pos rfl, if_pos hi, List.getElem?_range hi]
      simp
    · rw [if_neg hik]
      by_cases hk : k < data.length
      · rw [List.getElem?_range hk]
        have : k < i ↔ k < i + 1 := by omega
        simp [this]
      · rw [List.getElem?_eq_none (by simpa using hk)]
        rfl
  have hOC : forLoop (data.getD 0 []).length (fun j (oc : List Int) =>
        oc.set j ((fun j a => max a ((data.getD i []).getD j []).sum) j (oc.getD j 0)))
        ((List.range (data.getD 0 []).length).map (fun j =>
          (List.range i).foldl (fun m i' => max m (total_alleles data i' j)) 0)) =
      (List.range (data.getD 0 []).length).map (fun j =>
          (List.range (i + 1)).foldl (fun m i' => max m (total_alleles data i' j)) 0) := by
    apply List.ext_getElem?
    intro k
    rw [forLoop_set_getElem? 0 (fun j a => max a ((data.getD i []).getD j []).sum),
      List.getElem?_map, List.getElem?_map]
    by_cases hk : k < (data.getD 0 []).length
    · rw [if_pos hk, List.getElem?_range hk]
      simp only [Option.map_some', foldl_max_succ]
      rfl
    · rw [if_neg hk, List.getElem?_eq_none (by simpa using hk)]
      rfl
  by_cases hgt : first_size data i >
      (List.range i).foldl (fun m i' => max m (first_size data i')) statics.max_alleles
  · rw [if_pos hgt]
    simp only
    rw [sample_loop_eq i _ _ (data.getD i []) hl h2]
    simp only [hNA, hOC, foldl_max_succ, max_eq_right (le_of_lt hgt)]
  · rw [if_neg hgt]
    simp only
    rw [sample_loop_eq i _ _ (data.getD i []) hl h2]
    simp only [hNA, hOC, foldl_max_succ, max_eq_left (not_lt.mp hgt)]

/-- The constructor succeeds on every input with at least one locus in which
every locus has at least one sample and at least as many samples as locus
`0`, and leaves the static members in the closed form for all loci. -/
theorem construct_eq (statics : GenotypingData) (data : List (List (List Int)))
    (is_missing : List (List Bool)) (hne : data ≠ [])
    (hrow : ∀ locus ∈ data, 1 ≤ locus.length ∧ (data.getD 0 []).length ≤ locus.length) :
    GenotypingData.construct statics data is_missing =
      some (GenotypingData.after_loci statics data is_missing data.length) := by
  have hlen : 0 < data.length := List.length_pos.mpr hne
  have hl : data[0]? = some (data.getD 0 []) := by
    rw [List.getD_eq_getElem?_getD, List.getElem?_eq_getElem hlen, Option.getD_some]
  have h := forLoopM_of_step data.length (fun i s => GenotypingData.locus_body i s)
    (GenotypingData.after_loci statics data is_missing)
    (fun i hi => locus_body_eq statics data is_missing i hi hrow)
  have h0 : GenotypingData.after_loci statics data is_missing 0 =
      { observed_alleles := data, is_missing_ := is_missing,
        observed_coi := List.replicate (data.getD 0 []).length 0,
        num_alleles := List.replicate data.length 0,
        num_samples := (data.getD 0 []).length, num_loci := data.length,
        max_alleles := statics.max_alleles } := by
    simp [GenotypingData.after_loci, List.map_const']
  rw [h0] at h
  simp only [GenotypingData.construct, hl, Option.bind_eq_bind, Option.some_bind]
  exact h

/-- The running maximum is at least its starting value. -/
theorem foldl_max_ge_init (f : Nat → Int) (a : Int) (n : Nat) :
    a ≤ (List.range n).foldl (fun m k => max m (f k)) a := by
  induction n with
  | zero => simp
  | succ n ih =>
    rw [foldl_max_succ]
    exact le_trans ih (le_max_left _ _)

/-- The running maximum is at least every value it ran over. -/
theorem foldl_max_ge (f : Nat → Int) (a : Int) (n k : Nat) (hk : k < n) :
    f k ≤ (List.range n).foldl (fun m k => max m (f k)) a := by
  induction n with
  | zero => omega
  | succ n ih =>
    rw [foldl_max_succ]
    by_cases hkn : k < n
    · exact le_trans (ih hkn) (le_max_left _ _)
    · have : k = n := by omega
      subst this
      exact le_max_right _ _

/-- The running maximum is its starting value or one of the values it ran
over. -/
theorem foldl_max_mem (f : Nat → Int) (a : Int) (n : Nat) :
    (List.range n).foldl (fun m k => max m (f k)) a = a ∨
      ∃ k, k < n ∧ (List.range n).foldl (fun m k => max m (f k)) a = f k := by
  induction n with
  | zero => simp
  | succ n ih =>
    rw [foldl_max_succ]
    rcases max_cases ((List.range n).foldl (fun m k => max m (f k)) a) (f n) with h | h
    · rw [h.1]
      rcases ih with h1 | ⟨k, hk, h1⟩
      · exact Or.inl h1
      · exact Or.inr ⟨k, Nat.lt_succ_of_lt hk, h1⟩
    · rw [h.1]
      exact Or.inr ⟨n, Nat.lt_succ_self n, rfl⟩

/-- The sum of a vector of zeros and ones is its number of ones. -/
theorem sum_eq_count_one (cell : List Int) (h01 : ∀ a ∈ cell, a = 0 ∨ a = 1) :
    cell.sum = (cell.count 1 : Int) := by
  induction cell with
  | nil => simp
  | cons a t ih =>
    have ht := ih (fun b hb => h01 b (List.mem_cons_of_mem a hb))
    rcases h01 a (List.mem_cons_self a t) with h | h
    · subst h
      simp [ht]
    · subst h
      simp [ht]
      ring

/-- In a tensor with `ns` samples at every locus, locus `0` has `ns` samples
and every locus meets the requirement of `construct_eq`. -/
theorem tensor_rows (data : List (List (List Int))) (ns : Nat) (hne : data ≠ [])
    (hns : 1 ≤ ns) (hrect : ∀ locus ∈ data, locus.length = ns) :
    (data.getD 0 []).length = ns ∧
      ∀ locus ∈ data, 1 ≤ locus.length ∧ (data.getD 0 []).length ≤ locus.length := by
  have hlen : 0 < data.length := List.length_pos.mpr hne
  have h0 : (data.getD 0 []).length = ns := by
    apply hrect
    rw [List.getD_eq_getElem?_getD, List.getElem?_eq_getElem hlen, Option.getD_some]
    exact List.getElem_mem hlen
  refine ⟨h0, fun locus hl => ?_⟩
  rw [h0, hrect locus hl]
  exact ⟨hns, le_refl _⟩

/-- C3: for every genotype tensor with at least one locus and `ns ≥ 1` samples
at every locus whose entries are all `0` or `1`, and whatever the static
members held before, the constructor succeeds, `observed_coi` has `ns`
entries, and `observed_coi[j]` is the maximum over the loci `i` of the number
of alleles `k` with `observed_alleles[i][j][k] = 1`: it bounds every such
number and is one of them. -/
theorem construct_observed_coi (statics : GenotypingData) (data : List (List (List Int)))
    (is_missing : List (List Bool)) (ns : Nat) (hne : data ≠ []) (hns : 1 ≤ ns)
    (hrect : ∀ locus ∈ data, locus.length = ns)
    (h01 : ∀ locus ∈ data, ∀ cell ∈ locus, ∀ a ∈ cell, a = 0 ∨ a = 1) :
    ∃ s : GenotypingData,
      GenotypingData.construct statics data is_missing = some s ∧
      s.num_samples = ns ∧
      s.observed_coi.length = ns ∧
      ∀ j, j < ns → ∃ v : Int, s.observed_coi[j]? = some v ∧
        (∀ i, i < data.length → (((data.getD i []).getD j []).count 1 : Int) ≤ v) ∧
        (∃ i, i < data.length ∧ v = (((data.getD i []).getD j []).count 1 : Int)) := by
  obtain ⟨h0, hrow⟩ := tensor_rows data ns hne hns hrect
  have hlen : 0 < data.length := List.length_pos.mpr hne
  have htot : ∀ i j, i < data.length → j < ns →
      total_alleles data i j = (((data.getD i []).getD j []).count 1 : Int) := by
    intro i j hi hj
    have hmem : data.getD i [] ∈ data := by
      rw [List.getD_eq_getElem?_getD, List.getElem?_eq_getElem hi, Option.getD_some]
      exact List.getElem_mem hi
    have hj2 : j < (data.getD i []).length := by rw [hrect _ hmem]; exact hj
    have hmem2 : (data.getD i []).getD j [] ∈ data.getD i [] := by
      rw [List.getD_eq_getElem?_getD (data.getD i []), List.getElem?_eq_getElem hj2,
        Option.getD_some]
      exact List.getElem_mem hj2
    exact sum_eq_count_one _ (h01 _ hmem _ hmem2)
  refine ⟨_, construct_eq statics data is_missing hne hrow, h0, ?_, ?_⟩
  · simp only [GenotypingData.after_loci, List.length_map, List.length_range, h0]
  · intro j hj
    refine ⟨(List.range data.length).foldl (fun m i' => max m (total_alleles data i' j)) 0,
      ?_, ?_, ?_⟩
    · simp only [GenotypingData.after_loci, h0, List.getElem?_map, List.getElem?_range hj,
        Option.map_some']
    · intro i hi
      rw [← htot i j hi hj]
      exact foldl_max_ge (fun i' => total_alleles data i' j) 0 data.length i hi
    · rcases foldl_max_mem (fun i' => total_alleles data i' j) 0 data.length with h | ⟨k, hk, h⟩
      · refine ⟨0, hlen, ?_⟩
        have h1 := foldl_max_ge (fun i' => total_alleles data i' j) 0 data.length 0 hlen
        simp only at h h1
        rw [h] at h1 ⊢
        rw [htot 0 j hlen hj] at h1
        omega
      · exact ⟨k, hk, by rw [← htot k j hk hj]; exact h⟩

/-- Witness for C3: two loci, two samples; the counts are `1, 2` at locus `0`
and `1, 3` at locus `1`, so `observed_coi = [1, 3]`. -/
theorem construct_observed_coi_witness :
    ∃ s : GenotypingData,
      GenotypingData.construct GenotypingData.initial
        [[[1, 0], [1, 1]], [[0, 0, 1], [1, 1, 1]]] [[false, false], [false, false]] = some s ∧
      s.observed_coi = [1, 3] ∧
      ∀ j, j < 2 → ∃ v : Int, s.observed_coi[j]? = some v ∧
        (∀ i, i < 2 → ((((([[[1, 0], [1, 1]], [[0, 0, 1], [1, 1, 1]]] :
          List (List (List Int))).getD i []).getD j []).count 1 : Nat) : Int) ≤ v) := by
  obtain ⟨s, h1, _, _, h4⟩ := construct_observed_coi GenotypingData.initial
    [[[1, 0], [1, 1]], [[0, 0, 1], [1, 1, 1]]] [[false, false], [false, false]] 2
    (by simp) (by norm_num) (by simp) (by simp)
  refine ⟨s, h1, ?_, fun j hj => ?_⟩
  · have h2 : GenotypingData.construct GenotypingData.initial
        [[[1, 0], [1, 1]], [[0, 0, 1], [1, 1, 1]]] [[false, false], [false, false]] =
        some ⟨[[[1, 0], [1, 1]], [[0, 0, 1], [1, 1, 1]]], [[false, false], [false, false]],
          [1, 3], [2, 3], 2, 2, 3⟩ := by decide
    rw [h2] at h1
    rw [← Option.some.inj h1]
  · obtain ⟨v, hv, hb, _⟩ := h4 j hj
    exact ⟨v, hv, hb⟩

/-- C4: for every genotype tensor `data` with at least one locus and `ns ≥ 1`
samples at every locus, the constructor succeeds, and afterwards
`get_observed_alleles(locus, sample)` returns exactly `data[locus][sample]`
for every `locus < num_loci` and every `sample < num_samples`. -/
theorem get_observed_alleles_roundtrip (statics : GenotypingData)
    (data : List (List (List Int))) (is_missing : List (List Bool)) (ns : Nat)
    (hne : data ≠ []) (hns : 1 ≤ ns) (hrect : ∀ locus ∈ data, locus.length = ns) :
    ∃ s : GenotypingData,
      GenotypingData.construct statics data is_missing = some s ∧
      s.num_loci = data.length ∧ s.num_samples = ns ∧
      ∀ locus sample : Nat, locus < s.num_loci → sample < s.num_samples →
        ∃ v : List Int, (data[locus]?).bind (fun l => l[sample]?) = some v ∧
          s.get_observed_alleles (locus : Int) (sample : Int) = some v := by
  obtain ⟨h0, hrow⟩ := tensor_rows data ns hne hns hrect
  refine ⟨_, construct_eq statics data is_missing hne hrow, rfl, h0, ?_⟩
  intro locus sample hl hs
  have hl2 : locus < data.length := hl
  have hs2 : sample < ns := by rw [← h0]; exact hs
  have hs3 : sample < (data[locus]).length := by
    rw [hrect _ (List.getElem_mem hl2)]
    exact hs2
  have hneg : ¬ ((locus : Int) < 0 ∨ (sample : Int) < 0) := by omega
  refine ⟨(data[locus])[sample], ?_, ?_⟩
  · rw [List.getElem?_eq_getElem hl2, Option.some_bind, List.getElem?_eq_getElem hs3]
  · simp only [GenotypingData.get_observed_alleles, if_neg hneg, Int.toNat_ofNat,
      GenotypingData.after_loci]
    rw [List.getElem?_eq_getElem hl2, Option.some_bind, List.getElem?_eq_getElem hs3]

/-- Witness for C4: two loci, two samples. -/
theorem get_observed_alleles_roundtrip_witness :
    ∃ s : GenotypingData,
      GenotypingData.construct GenotypingData.initial
        [[[1, 0], [1, 1]], [[0, 0, 1], [1, 1, 1]]] [[false, false], [false, false]] = some s ∧
      s.get_observed_alleles 1 0 = some [0, 0, 1] := by
  obtain ⟨s, h1, h2, h3, h4⟩ := get_observed_alleles_roundtrip GenotypingData.initial
    [[[1, 0], [1, 1]], [[0, 0, 1], [1, 1, 1]]] [[false, false], [false, false]] 2
    (by simp) (by norm_num) (by simp)
  obtain ⟨v, hv1, hv2⟩ := h4 1 0 (by rw [h2]; decide) (by rw [h3]; decide)
  refine ⟨s, h1, ?_⟩
  have hv : v = [0, 0, 1] := by
    have h5 : (([[[1, 0], [1, 1]], [[0, 0, 1], [1, 1, 1]]] : List (List (List Int)))[1]?).bind
        (fun l => l[0]?) = some [0, 0, 1] := rfl
    rw [h5] at hv1
    exact (Option.some.inj hv1).symm
  rw [← hv]
  exact hv2

/-- Counterexample to C8: one locus whose two samples have allele vectors of
lengths `1` and `2`. The constructor returns without error; in the dataset it
produces `num_alleles[0]` is `1` while `observed_alleles[0][1]` has size `2`. -/
theorem construct_ragged_counterexample :
    ∃ s : GenotypingData,
      GenotypingData.construct GenotypingData.initial [[[1], [1, 0]]] [[false, false]] =
        some s ∧
      s.num_alleles = [1] ∧
      (s.observed_alleles.getD 0 []).getD 1 [] = [1, 0] ∧
      (((s.observed_alleles.getD 0 []).getD 1 []).length : Int) ≠ s.num_alleles.getD 0 0 :=
  ⟨⟨[[[1], [1, 0]]], [[false, false]], [1, 1], [1], 2, 1, 1⟩, by decide, rfl, rfl, by decide⟩

/-- C8 (amended): the constructor checks no allele-vector length. On every
genotype tensor with at least one locus and `ns ≥ 1` samples at every locus it
returns without error, stores the tensor as given and sets `num_alleles[i]` to
the size of the allele vector of sample `0` at locus `i`; so
`observed_alleles[i][j].size() == num_alleles[i]` holds for every locus and
sample exactly when the input already has, at every locus, all allele vectors
of the size of that of sample `0`. -/
theorem construct_num_alleles (statics : GenotypingData) (data : List (List (List Int)))
    (is_missing : List (List Bool)) (ns : Nat) (hne : data ≠ []) (hns : 1 ≤ ns)
    (hrect : ∀ locus ∈ data, locus.length = ns) :
    ∃ s : GenotypingData,
      GenotypingData.construct statics data is_missing = some s ∧
      s.observed_alleles = data ∧
      s.num_alleles.length = data.length ∧
      (∀ i, i < data.length →
        s.num_alleles[i]? = some (((data.getD i []).getD 0 []).length : Int)) ∧
      ((∀ i j, i < data.length → j < ns →
          (((s.observed_alleles.getD i []).getD j []).length : Int) = s.num_alleles.getD i 0) ↔
        (∀ i j, i < data.length → j < ns →
          ((data.getD i []).getD j []).length = ((data.getD i []).getD 0 []).length)) := by
  obtain ⟨_, hrow⟩ := tensor_rows data ns hne hns hrect
  have hna : ∀ i, i < data.length →
      (GenotypingData.after_loci statics data is_missing data.length).num_alleles[i]? =
        some (((data.getD i []).getD 0 []).length : Int) := by
    intro i hi
    simp only [GenotypingData.after_loci, List.getElem?_map, List.getElem?_range hi,
      Option.map_some', if_pos hi, first_size]
  refine ⟨_, construct_eq statics data is_missing hne hrow, rfl, ?_, hna, ?_⟩
  · simp only [GenotypingData.after_loci, List.length_map, List.length_range]
  · have hgd : ∀ i, i < data.length →
        (GenotypingData.after_loci statics data is_missing data.length).num_alleles.getD i 0 =
          (((data.getD i []).getD 0 []).length : Int) := by
      intro i hi
      rw [List.getD_eq_getElem?_getD, hna i hi, Option.getD_some]
    constructor
    · intro h i j hi hj
      have h1 := h i j hi hj
      rw [hgd i hi] at h1
      exact Int.ofNat_inj.mp h1
    · intro h i j hi hj
      rw [hgd i hi]
      exact congrArg Int.ofNat (h i j hi hj)

/-- Witness for C8 (amended): two loci with allele vectors of sizes `2` and
`3`. -/
theorem construct_num_alleles_witness :
    ∃ s : GenotypingData,
      GenotypingData.construct GenotypingData.initial
        [[[1, 0], [1, 1]], [[0, 0, 1], [1, 1, 1]]] [[false, false], [false, false]] = some s ∧
      s.observed_alleles = [[[1, 0], [1, 1]], [[0, 0, 1], [1, 1, 1]]] ∧
      s.num_alleles.length = 2 := by
  obtain ⟨s, h1, h2, h3, _⟩ := construct_num_alleles GenotypingData.initial
    [[[1, 0], [1, 1]], [[0, 0, 1], [1, 1, 1]]] [[false, false], [false, false]] 2
    (by simp) (by norm_num) (by simp)
  exact ⟨s, h1, h2, h3⟩

/-- The value of `max_alleles` after a construction: the running maximum of
the sizes `num_alleles[i]`, started from the value the static held before. -/
theorem construct_max_alleles (statics : GenotypingData) (data : List (List (List Int)))
    (is_missing : List (List Bool)) (ns : Nat) (hne : data ≠ []) (hns : 1 ≤ ns)
    (hrect : ∀ locus ∈ data, locus.length = ns) :
    ∃ s : GenotypingData,
      GenotypingData.construct statics data is_missing = some s ∧
      statics.max_alleles ≤ s.max_alleles ∧
      (∀ i, i < data.length → (((data.getD i []).getD 0 []).length : Int) ≤ s.max_alleles) ∧
      (s.max_alleles = statics.max_alleles ∨
        ∃ i, i < data.length ∧ s.max_alleles = (((data.getD i []).getD 0 []).length : Int)) := by
  obtain ⟨_, hrow⟩ := tensor_rows data ns hne hns hrect
  refine ⟨_, construct_eq statics data is_missing hne hrow, ?_, ?_, ?_⟩
  · exact foldl_max_ge_init (first_size data) statics.max_alleles data.length
  · intro i hi
    exact foldl_max_ge (first_size data) statics.max_alleles data.length i hi
  · exact foldl_max_mem (first_size data) statics.max_alleles data.length

/-- C9 (failing input): a first construction, from a one-locus dataset with
three alleles, leaves `max_alleles = 3`; a second construction, from a
one-locus dataset with two alleles, sets `num_alleles = [2]` and leaves
`max_alleles` at `3`, not at the maximum `2` of `num_alleles`. -/
theorem construct_max_alleles_stale :
    ∃ s1 s2 : GenotypingData,
      GenotypingData.construct GenotypingData.initial [[[0, 1, 0]]] [[false]] = some s1 ∧
      s1.max_alleles = 3 ∧
      GenotypingData.construct s1 [[[1, 0]]] [[false]] = some s2 ∧
      s2.num_alleles = [2] ∧
      s2.max_alleles = 3 :=
  ⟨⟨[[[0, 1, 0]]], [[false]], [1], [3], 1, 1, 3⟩, ⟨[[[1, 0]]], [[false]], [1], [2], 1, 1, 3⟩,
    by decide, rfl, by decide, rfl, rfl⟩

end Moire
